import Mathlib

/-!
Verification of the RedisJSON client adapter
(`src/aioredis/commands/json/__init__.py`).

The development shallowly embeds the module's Python code:

* `PyVal` models the dynamically typed Python values that flow through the
  adapter (the absent signal `None`, booleans, integers, strings, byte
  sequences, lists and dicts).  JSON numbers are modelled as integers.
* `PyErr` models the Python exception classes the decode fallback chain
  distinguishes (`TypeError`, `AttributeError`, `json.JSONDecodeError`,
  `ValueError`).
* The `json` standard-library encode/parse primitives are an external
  capability of the program (the spec treats them as a collaborator, not as
  repository code).  They are modelled by an executable renderer
  (`render`) and parser (`parse`) over the concrete JSON grammar
  (without insignificant whitespace, which the encoder of the model never
  emits).  `JSONDecoder.decode` raising `TypeError` on non-string input and
  `JSONDecodeError` on malformed text is modelled by `json_decode`.
* Functions of this repository that sit outside `src/` (`nativestr`,
  `decode_list`, `bulk_of_jsons`, the underlying client and pipeline) are
  modelled from the spec; each such definition carries a doc comment
  starting with `Modelled from the spec:`.

Exceptions are embedded with `Except PyErr`; a Python `try/except` becomes a
`match` on the `Except` value of the guarded expression.
-/

namespace AioredisJson

/-- Python values crossing the adapter's boundary: the absent wire signal
(`none`), booleans, integers, strings, byte sequences (their decoded UTF-8
text content), ordered sequences and mappings. -/
inductive PyVal where
  | none : PyVal
  | bool : Bool → PyVal
  | int : Int → PyVal
  | str : String → PyVal
  | bytes : String → PyVal
  | list : List PyVal → PyVal
  | dict : List (String × PyVal) → PyVal

/-- Python exception kinds distinguished by the decode fallback chain. -/
inductive PyErr where
  | typeError : PyErr
  | attributeError : PyErr
  | jsonDecodeError : PyErr
  | valueError : PyErr
deriving DecidableEq

/-! ## Decimal digits -/

/-- The decimal digit character for `d` (saturating at `'9'`). -/
def digitChar (d : Nat) : Char :=
  match d with
  | 0 => '0' | 1 => '1' | 2 => '2' | 3 => '3' | 4 => '4'
  | 5 => '5' | 6 => '6' | 7 => '7' | 8 => '8' | _ => '9'

/-- Decimal digit test used by the number grammar. -/
def isDigitCh (c : Char) : Bool := c.isDigit

/-- Numeric value of a decimal digit character. -/
def digitVal (c : Char) : Nat := c.toNat - 48

theorem isDigitCh_digitChar (d : Nat) : isDigitCh (digitChar d) = true := by
  unfold digitChar
  split <;> decide

theorem digitVal_digitChar (d : Nat) (h : d < 10) : digitVal (digitChar d) = d := by
  interval_cases d <;> decide

/-- Big-endian decimal digit characters of a natural number (the digits that
`str(n)` produces in Python; no leading zeros, `0` renders as `"0"`). -/
def natDigitsBE (n : Nat) : List Char :=
  if h : n < 10 then [digitChar n]
  else natDigitsBE (n / 10) ++ [digitChar (n % 10)]
decreasing_by exact Nat.div_lt_self (by omega) (by omega)

theorem natDigitsBE_ne_nil (n : Nat) : natDigitsBE n ≠ [] := by
  rw [natDigitsBE]
  split <;> simp

theorem natDigitsBE_digits (n : Nat) : ∀ c ∈ natDigitsBE n, isDigitCh c = true := by
  rw [natDigitsBE]
  split
  · simp [isDigitCh_digitChar]
  · intro c hc
    rcases List.mem_append.1 hc with h1 | h2
    · exact natDigitsBE_digits (n / 10) c h1
    · simp only [List.mem_singleton] at h2
      subst h2
      exact isDigitCh_digitChar _
decreasing_by exact Nat.div_lt_self (by omega) (by omega)

/-- Folding the digit accumulator over the rendered digits recovers the
number (Horner evaluation). -/
theorem natDigitsBE_foldl (n : Nat) :
    ∀ acc, List.foldl (fun a c => a * 10 + digitVal c) acc (natDigitsBE n)
      = acc * 10 ^ (natDigitsBE n).length + n := by
  rw [natDigitsBE]
  split
  · intro acc
    simp only [List.foldl, List.length_singleton, pow_one]
    rw [digitVal_digitChar n (by omega)]
  · intro acc
    rw [List.foldl_append, natDigitsBE_foldl (n / 10), List.length_append]
    simp only [List.foldl, List.length_singleton]
    rw [digitVal_digitChar (n % 10) (Nat.mod_lt _ (by omega))]
    have hdm := Nat.div_add_mod n 10
    rw [pow_succ]
    ring_nf
    omega
decreasing_by exact Nat.div_lt_self (by omega) (by omega)

/-- Consume a maximal run of decimal digits, Horner-accumulating their
value; stops at the first non-digit. -/
def parseDigits : List Char → Nat → Nat × List Char
  | c :: cs, acc =>
      if isDigitCh c then parseDigits cs (acc * 10 + digitVal c) else (acc, c :: cs)
  | [], acc => (acc, [])

/-- Head of a character list is not a decimal digit (vacuously true for the
empty list).  The rendered form of a value is always followed by such a
suffix, so number parsing stops exactly at the value's boundary. -/
def nonDigitStart : List Char → Bool
  | [] => true
  | c :: _ => !isDigitCh c

theorem parseDigits_append (ds : List Char) :
    ∀ rest acc, (∀ c ∈ ds, isDigitCh c = true) →
      parseDigits (ds ++ rest) acc
        = parseDigits rest (List.foldl (fun a c => a * 10 + digitVal c) acc ds) := by
  induction ds with
  | nil => intro rest acc _; rfl
  | cons c cs ih =>
      intro rest acc h
      have hc : isDigitCh c = true := h c (List.mem_cons_self _ _)
      simp only [List.cons_append, parseDigits, hc, if_pos]
      exact ih rest _ (fun d hd => h d (List.mem_cons_of_mem _ hd))

theorem parseDigits_stop (rest : List Char) (acc : Nat) (h : nonDigitStart rest = true) :
    parseDigits rest acc = (acc, rest) := by
  cases rest with
  | nil => rfl
  | cons c cs =>
      simp only [nonDigitStart, Bool.not_eq_true'] at h
      simp [parseDigits, h]

/-- Parsing the rendered digits of `n` followed by a non-digit suffix yields
exactly `n` and leaves the suffix untouched. -/
theorem parseDigits_natDigitsBE (n : Nat) (rest : List Char)
    (h : nonDigitStart rest = true) :
    parseDigits (natDigitsBE n ++ rest) 0 = (n, rest) := by
  rw [parseDigits_append _ _ _ (natDigitsBE_digits n), parseDigits_stop _ _ h,
    natDigitsBE_foldl]
  simp

/-! ## JSON string bodies -/

/-- Escape the characters of a string the way the JSON encoder does for the
two structurally significant characters (`"` and `\`); other characters are
emitted verbatim. -/
def escapeChars : List Char → List Char
  | [] => []
  | c :: cs =>
      if c = '"' ∨ c = '\\' then '\\' :: c :: escapeChars cs
      else c :: escapeChars cs

/-- Parse a JSON string body (everything after the opening quote) up to and
including the closing quote, undoing escapes. -/
def parseStrBody : List Char → Option (List Char × List Char)
  | [] => Option.none
  | c :: cs =>
      if c = '"' then some ([], cs)
      else if c = '\\' then
        match cs with
        | c2 :: cs2 => (parseStrBody cs2).map (fun p => (c2 :: p.1, p.2))
        | [] => Option.none
      else (parseStrBody cs).map (fun p => (c :: p.1, p.2))

theorem parseStrBody_escape (cs : List Char) :
    ∀ rest, parseStrBody (escapeChars cs ++ '"' :: rest) = some (cs, rest) := by
  induction cs with
  | nil =>
      intro rest
      rw [escapeChars, List.nil_append, parseStrBody.eq_def]
      simp
  | cons c cs ih =>
      intro rest
      by_cases hc : c = '"' ∨ c = '\\'
      · rw [escapeChars, if_pos hc, List.cons_append, List.cons_append,
          parseStrBody.eq_def]
        simp [ih rest]
      · rw [escapeChars, if_neg hc, List.cons_append, parseStrBody.eq_def]
        push_neg at hc
        simp [hc.1, hc.2, ih rest]

theorem string_mk_data (s : String) : String.mk s.data = s := rfl

/-! ## The JSON text capability: renderer -/

mutual

/-- Characters of the JSON text produced by the encode capability
(`json.JSONEncoder().encode`) for a value.  The model renders without
insignificant whitespace; byte sequences are not JSON-serializable (the
encoder raises for them, see `_encode`), so their branch here is only a
total-function filler rendering the content like a string. -/
def renderC : PyVal → List Char
  | PyVal.none => ['n', 'u', 'l', 'l']
  | PyVal.bool true => ['t', 'r', 'u', 'e']
  | PyVal.bool false => ['f', 'a', 'l', 's', 'e']
  | PyVal.int (Int.ofNat n) => natDigitsBE n
  | PyVal.int (Int.negSucc m) => '-' :: natDigitsBE (m + 1)
  | PyVal.str s => '"' :: (escapeChars s.data ++ ['"'])
  | PyVal.bytes s => '"' :: (escapeChars s.data ++ ['"'])
  | PyVal.list [] => ['[', ']']
  | PyVal.list (x :: xs) => '[' :: (renderElems (x :: xs) ++ [']'])
  | PyVal.dict [] => ['\x7b', '\x7d']
  | PyVal.dict (p :: ps) => '\x7b' :: (renderMembers (p :: ps) ++ ['\x7d'])

/-- Comma-separated rendering of the elements of a JSON array. -/
def renderElems : List PyVal → List Char
  | [] => []
  | [x] => renderC x
  | x :: y :: ys => renderC x ++ ',' :: renderElems (y :: ys)

/-- Comma-separated rendering of the members of a JSON object. -/
def renderMembers : List (String × PyVal) → List Char
  | [] => []
  | [(k, v)] => '"' :: (escapeChars k.data ++ ['"']) ++ ':' :: renderC v
  | (k, v) :: q :: qs =>
      '"' :: (escapeChars k.data ++ ['"']) ++ ':' :: renderC v
        ++ ',' :: renderMembers (q :: qs)

end

mutual

/-- Structural size of a value, used only to discharge the fuel bound of the
parser in the round-trip proof. -/
def msize : PyVal → Nat
  | PyVal.list xs => msizeL xs + 2
  | PyVal.dict kvs => msizeD kvs + 2
  | _ => 1

/-- Structural size of a list of elements. -/
def msizeL : List PyVal → Nat
  | [] => 0
  | x :: xs => msize x + msizeL xs + 1

/-- Structural size of a list of object members. -/
def msizeD : List (String × PyVal) → Nat
  | [] => 0
  | (_, v) :: kvs => msize v + msizeD kvs + 1

end

mutual

/-- A value is canonical (JSON-serializable) when no byte sequence occurs in
it: this is the `CanonicalValue` space of the spec, over which the encode
capability never fails. -/
def Canonical : PyVal → Bool
  | PyVal.bytes _ => false
  | PyVal.list xs => CanonicalElems xs
  | PyVal.dict kvs => CanonicalMembers kvs
  | _ => true

/-- Canonicality of every element of a list. -/
def CanonicalElems : List PyVal → Bool
  | [] => true
  | x :: xs => Canonical x && CanonicalElems xs

/-- Canonicality of every value of an object's members. -/
def CanonicalMembers : List (String × PyVal) → Bool
  | [] => true
  | (_, v) :: kvs => Canonical v && CanonicalMembers kvs

end

/-! ## The JSON text capability: parser -/

mutual

/-- Fuel-indexed parser for a single JSON value at the head of the input;
returns the value and the unconsumed suffix. -/
def parseVal : Nat → List Char → Option (PyVal × List Char)
  | 0, _ => Option.none
  | _ + 1, [] => Option.none
  | f + 1, c :: cs =>
      if isDigitCh c then
        some (PyVal.int (Int.ofNat (parseDigits (c :: cs) 0).1),
          (parseDigits (c :: cs) 0).2)
      else if c = '"' then
        (parseStrBody cs).map (fun p => (PyVal.str (String.mk p.1), p.2))
      else if c = '-' then
        match cs with
        | c2 :: cs2 =>
            if isDigitCh c2 then
              some (PyVal.int (-(Int.ofNat (parseDigits (c2 :: cs2) 0).1)),
                (parseDigits (c2 :: cs2) 0).2)
            else Option.none
        | [] => Option.none
      else if c = '[' then parseListBody f cs
      else if c = '\x7b' then parseDictBody f cs
      else if c = 'n' then
        match cs with
        | 'u' :: 'l' :: 'l' :: r => some (PyVal.none, r)
        | _ => Option.none
      else if c = 't' then
        match cs with
        | 'r' :: 'u' :: 'e' :: r => some (PyVal.bool true, r)
        | _ => Option.none
      else if c = 'f' then
        match cs with
        | 'a' :: 'l' :: 's' :: 'e' :: r => some (PyVal.bool false, r)
        | _ => Option.none
      else Option.none

/-- Parse what follows the opening bracket of an array: either the closing
bracket immediately, or a non-empty comma-separated element list. -/
def parseListBody : Nat → List Char → Option (PyVal × List Char)
  | 0, _ => Option.none
  | f + 1, [] => Option.none
  | f + 1, c :: cs =>
      if c = ']' then some (PyVal.list [], cs)
      else (parseElems f (c :: cs)).map (fun p => (PyVal.list p.1, p.2))

/-- Parse a non-empty comma-separated element list and its closing bracket. -/
def parseElems : Nat → List Char → Option (List PyVal × List Char)
  | 0, _ => Option.none
  | f + 1, cs =>
      match parseVal f cs with
      | some (v, c2 :: cs2) =>
          if c2 = ']' then some ([v], cs2)
          else if c2 = ',' then
            (parseElems f cs2).map (fun p => (v :: p.1, p.2))
          else Option.none
      | _ => Option.none

/-- Parse what follows the opening brace of an object: either the closing
brace immediately, or a non-empty comma-separated member list. -/
def parseDictBody : Nat → List Char → Option (PyVal × List Char)
  | 0, _ => Option.none
  | f + 1, [] => Option.none
  | f + 1, c :: cs =>
      if c = '\x7d' then some (PyVal.dict [], cs)
      else (parseMembers f (c :: cs)).map (fun p => (PyVal.dict p.1, p.2))

/-- Parse a non-empty comma-separated member list and its closing brace. -/
def parseMembers : Nat → List Char → Option (List (String × PyVal) × List Char)
  | 0, _ => Option.none
  | f + 1, cs =>
      match cs with
      | c :: cs1 =>
          if c = '"' then
            match parseStrBody cs1 with
            | some (kcs, c2 :: cs2) =>
                if c2 = ':' then
                  match parseVal f cs2 with
                  | some (v, c3 :: cs3) =>
                      if c3 = '\x7d' then some ([(String.mk kcs, v)], cs3)
                      else if c3 = ',' then
                        (parseMembers f cs3).map
                          (fun p => ((String.mk kcs, v) :: p.1, p.2))
                      else Option.none
                  | _ => Option.none
                else Option.none
            | _ => Option.none
          else Option.none
      | [] => Option.none

end

/-- The parse capability (`json.JSONDecoder().decode` on a string): parse one
JSON value and require the input to be fully consumed ("Extra data" is a
parse failure in Python's decoder). -/
def parse (s : String) : Option PyVal :=
  match parseVal (2 * s.data.length + 2) s.data with
  | some (v, []) => some v
  | _ => Option.none

/-- The render capability (`json.JSONEncoder().encode`) as a string. -/
def render (v : PyVal) : String := String.mk (renderC v)

/-! ## Round trip of the JSON text capability -/

theorem msize_pos (v : PyVal) : 1 ≤ msize v := by
  cases v <;> simp [msize]

theorem renderC_head (v : PyVal) :
    ∃ c t, renderC v = c :: t ∧ c ≠ ']' ∧ c ≠ '\x7d' := by
  cases v with
  | none => exact ⟨'n', ['u', 'l', 'l'], by simp [renderC], by decide, by decide⟩
  | bool b => cases b with
    | true => exact ⟨'t', ['r', 'u', 'e'], by simp [renderC], by decide, by decide⟩
    | false => exact ⟨'f', ['a', 'l', 's', 'e'], by simp [renderC], by decide, by decide⟩
  | int i => cases i with
    | ofNat n =>
        cases hnn : natDigitsBE n with
        | nil => exact absurd hnn (natDigitsBE_ne_nil n)
        | cons c cs =>
            have hc : isDigitCh c = true :=
              natDigitsBE_digits n c (by rw [hnn]; exact List.mem_cons_self c cs)
            refine ⟨c, cs, by simp [renderC, hnn], ?_, ?_⟩
            · intro h; rw [h] at hc; exact absurd hc (by decide)
            · intro h; rw [h] at hc; exact absurd hc (by decide)
    | negSucc m => exact ⟨'-', natDigitsBE (m + 1), by simp [renderC], by decide, by decide⟩
  | str s => exact ⟨'"', escapeChars s.data ++ ['"'], by simp [renderC], by decide, by decide⟩
  | bytes s => exact ⟨'"', escapeChars s.data ++ ['"'], by simp [renderC], by decide, by decide⟩
  | list xs => cases xs with
    | nil => exact ⟨'[', [']'], by simp [renderC], by decide, by decide⟩
    | cons x xs => exact ⟨'[', renderElems (x :: xs) ++ [']'], by simp [renderC], by decide, by decide⟩
  | dict kvs => cases kvs with
    | nil => exact ⟨'\x7b', ['\x7d'], by simp [renderC], by decide, by decide⟩
    | cons p ps => exact ⟨'\x7b', renderMembers (p :: ps) ++ ['\x7d'], by simp [renderC], by decide, by decide⟩

theorem renderElems_eq_head (x : PyVal) (xs : List PyVal) :
    ∃ t, renderElems (x :: xs) = renderC x ++ t := by
  cases xs with
  | nil => exact ⟨[], by simp [renderElems]⟩
  | cons y ys => exact ⟨',' :: renderElems (y :: ys), by simp [renderElems]⟩

theorem parseListBody_ne (f : Nat) (cs : List Char)
    (h : ∃ c t, cs = c :: t ∧ c ≠ ']') :
    parseListBody (f + 1) cs
      = (parseElems f cs).map (fun p => (PyVal.list p.1, p.2)) := by
  obtain ⟨c, t, rfl, hne⟩ := h
  rw [parseListBody.eq_def]
  simp [hne]

theorem parseDictBody_ne (f : Nat) (cs : List Char)
    (h : ∃ c t, cs = c :: t ∧ c ≠ '\x7d') :
    parseDictBody (f + 1) cs
      = (parseMembers f cs).map (fun p => (PyVal.dict p.1, p.2)) := by
  obtain ⟨c, t, rfl, hne⟩ := h
  rw [parseDictBody.eq_def]
  simp [hne]



set_option maxHeartbeats 1000000

theorem msizeL_pos (x : PyVal) (xs : List PyVal) : 1 ≤ msizeL (x :: xs) := by
  simp [msizeL]

theorem msizeD_pos (p : String × PyVal) (ps : List (String × PyVal)) :
    1 ≤ msizeD (p :: ps) := by
  obtain ⟨k, v⟩ := p
  simp [msizeD]

theorem renderMembers_eq_head (p : String × PyVal) (ps : List (String × PyVal)) :
    ∃ t, renderMembers (p :: ps) = '"' :: t := by
  obtain ⟨k, v⟩ := p
  cases ps with
  | nil =>
      exact ⟨(escapeChars k.data ++ ['"']) ++ ':' :: renderC v, by simp [renderMembers]⟩
  | cons q qs =>
      exact ⟨(escapeChars k.data ++ ['"']) ++ ':' :: renderC v
        ++ ',' :: renderMembers (q :: qs), by simp [renderMembers]⟩

theorem parseVal_quote (f : Nat) (cs : List Char) :
    parseVal (f + 1) ('"' :: cs)
      = (parseStrBody cs).map (fun p => (PyVal.str (String.mk p.1), p.2)) := by
  rw [parseVal.eq_def]
  simp +decide

theorem parseVal_lbracket (f : Nat) (cs : List Char) :
    parseVal (f + 1) ('[' :: cs) = parseListBody f cs := by
  rw [parseVal.eq_def]
  simp +decide

theorem parseVal_lbrace (f : Nat) (cs : List Char) :
    parseVal (f + 1) ('\x7b' :: cs) = parseDictBody f cs := by
  rw [parseVal.eq_def]
  simp +decide


theorem rt (fuel : Nat) :
    (∀ v rest, Canonical v = true → msize v < fuel → nonDigitStart rest = true →
      parseVal fuel (renderC v ++ rest) = some (v, rest))
  ∧ (∀ xs rest, xs ≠ [] → CanonicalElems xs = true → msizeL xs < fuel →
      parseElems fuel (renderElems xs ++ ']' :: rest) = some (xs, rest))
  ∧ (∀ kvs rest, kvs ≠ [] → CanonicalMembers kvs = true → msizeD kvs < fuel →
      parseMembers fuel (renderMembers kvs ++ '\x7d' :: rest) = some (kvs, rest)) := by
  induction fuel using Nat.strong_induction_on with
  | _ fuel IH =>
  refine ⟨?_, ?_, ?_⟩
  · intro v rest hcan hsz hnd
    cases fuel with
    | zero => exact absurd hsz (Nat.not_lt_zero _)
    | succ f =>
      cases v with
      | none =>
          rw [show renderC PyVal.none = ['n', 'u', 'l', 'l'] from by simp [renderC]]
          rfl
      | bool b =>
          cases b with
          | true =>
              rw [show renderC (PyVal.bool true) = ['t', 'r', 'u', 'e'] from by
                simp [renderC]]
              rfl
          | false =>
              rw [show renderC (PyVal.bool false) = ['f', 'a', 'l', 's', 'e'] from by
                simp [renderC]]
              rfl
      | int i =>
          cases i with
          | ofNat n =>
              rw [show renderC (PyVal.int (Int.ofNat n)) = natDigitsBE n from by
                simp [renderC]]
              cases hnn : natDigitsBE n with
              | nil => exact absurd hnn (natDigitsBE_ne_nil n)
              | cons c cs =>
                  have hc : isDigitCh c = true :=
                    natDigitsBE_digits n c (by rw [hnn]; exact List.mem_cons_self c cs)
                  have hp : parseDigits (c :: (cs ++ rest)) 0 = (n, rest) := by
                    have h0 := parseDigits_natDigitsBE n rest hnd
                    rwa [hnn, List.cons_append] at h0
                  rw [List.cons_append, parseVal.eq_def]
                  simp [hc, hp]
          | negSucc m =>
              rw [show renderC (PyVal.int (Int.negSucc m)) = '-' :: natDigitsBE (m + 1)
                from by simp [renderC]]
              cases hnn : natDigitsBE (m + 1) with
              | nil => exact absurd hnn (natDigitsBE_ne_nil (m + 1))
              | cons c cs =>
                  have hc : isDigitCh c = true :=
                    natDigitsBE_digits (m + 1) c
                      (by rw [hnn]; exact List.mem_cons_self c cs)
                  have hp : parseDigits (c :: (cs ++ rest)) 0 = (m + 1, rest) := by
                    have h0 := parseDigits_natDigitsBE (m + 1) rest hnd
                    rwa [hnn, List.cons_append] at h0
                  simp only [List.cons_append]
                  rw [parseVal.eq_def]
                  simp [hc, hp, (by decide : isDigitCh '-' = false), Int.negSucc_eq]
      | str s =>
          rw [show renderC (PyVal.str s) = '"' :: (escapeChars s.data ++ ['"']) from by
            simp [renderC]]
          rw [List.cons_append, List.append_assoc, List.singleton_append,
            parseVal.eq_def]
          simp [parseStrBody_escape, string_mk_data,
            (by decide : isDigitCh '"' = false)]
      | bytes s => simp [Canonical] at hcan
      | list xs =>
          cases xs with
          | nil =>
              have hsz' : (1 : Nat) < f := by
                have : msize (PyVal.list []) = 2 := by simp [msize, msizeL]
                omega
              obtain ⟨f2, rfl⟩ : ∃ f2, f = f2 + 1 := ⟨f - 1, by omega⟩
              rw [show renderC (PyVal.list []) = ['[', ']'] from by simp [renderC]]
              rfl
          | cons x xs =>
              have hsz' : msizeL (x :: xs) + 2 < f + 1 := by simpa [msize] using hsz
              obtain ⟨f2, rfl⟩ : ∃ f2, f = f2 + 1 := ⟨f - 1, by omega⟩
              rw [show renderC (PyVal.list (x :: xs))
                  = '[' :: (renderElems (x :: xs) ++ [']']) from by simp [renderC],
                List.cons_append, List.append_assoc, List.singleton_append,
                parseVal_lbracket]
              have hex : ∃ c t, renderElems (x :: xs) ++ ']' :: rest = c :: t ∧ c ≠ ']' := by
                obtain ⟨t, ht⟩ := renderElems_eq_head x xs
                obtain ⟨c, t2, hx2, hne1, _⟩ := renderC_head x
                exact ⟨c, t2 ++ (t ++ ']' :: rest), by simp [ht, hx2], hne1⟩
              rw [parseListBody_ne f2 _ hex]
              have hcan' : CanonicalElems (x :: xs) = true := by simpa [Canonical] using hcan
              rw [(IH f2 (by omega)).2.1 (x :: xs) rest (List.cons_ne_nil x xs) hcan' (by omega)]
              rfl
      | dict kvs =>
          cases kvs with
          | nil =>
              have hsz' : (1 : Nat) < f := by
                have : msize (PyVal.dict []) = 2 := by simp [msize, msizeD]
                omega
              obtain ⟨f2, rfl⟩ : ∃ f2, f = f2 + 1 := ⟨f - 1, by omega⟩
              rw [show renderC (PyVal.dict []) = ['\x7b', '\x7d'] from by simp [renderC]]
              rfl
          | cons p ps =>
              have hsz' : msizeD (p :: ps) + 2 < f + 1 := by simpa [msize] using hsz
              obtain ⟨f2, rfl⟩ : ∃ f2, f = f2 + 1 := ⟨f - 1, by omega⟩
              rw [show renderC (PyVal.dict (p :: ps))
                  = '\x7b' :: (renderMembers (p :: ps) ++ ['\x7d']) from by simp [renderC],
                List.cons_append, List.append_assoc, List.singleton_append,
                parseVal_lbrace]
              have hex : ∃ c t, renderMembers (p :: ps) ++ '\x7d' :: rest = c :: t
                  ∧ c ≠ '\x7d' := by
                obtain ⟨t, ht⟩ := renderMembers_eq_head p ps
                exact ⟨'"', t ++ '\x7d' :: rest, by simp [ht], by decide⟩
              rw [parseDictBody_ne f2 _ hex]
              have hcan' : CanonicalMembers (p :: ps) = true := by simpa [Canonical] using hcan
              rw [(IH f2 (by omega)).2.2 (p :: ps) rest (List.cons_ne_nil p ps) hcan' (by omega)]
              rfl
  · intro xs rest hne hcan hsz
    cases fuel with
    | zero => exact absurd hsz (Nat.not_lt_zero _)
    | succ f =>
      cases xs with
      | nil => exact absurd rfl hne
      | cons x xs =>
          have hcan' : Canonical x = true ∧ CanonicalElems xs = true := by
            simpa [CanonicalElems] using hcan
          cases xs with
          | nil =>
              have hsz' : msize x + 1 < f + 1 := by simpa [msizeL] using hsz
              have h1 := (IH f (by omega)).1 x (']' :: rest) hcan'.1 (by omega) (by rfl)
              have hren : renderElems [x] = renderC x := by simp [renderElems]
              rw [parseElems.eq_def]
              simp [hren, h1]
          | cons y ys =>
              have hexp : msizeL (x :: y :: ys) = msize x + msizeL (y :: ys) + 1 := by
                simp [msizeL]
              have hpos := msizeL_pos y ys
              have hren : renderElems (x :: y :: ys) ++ ']' :: rest
                  = renderC x ++ (',' :: (renderElems (y :: ys) ++ ']' :: rest)) := by
                simp [renderElems]
              have h1 := (IH f (by omega)).1 x
                (',' :: (renderElems (y :: ys) ++ ']' :: rest)) hcan'.1
                (by omega) (by rfl)
              have h2 := (IH f (by omega)).2.1 (y :: ys) rest (List.cons_ne_nil y ys)
                hcan'.2 (by omega)
              rw [parseElems.eq_def]
              simp +decide [hren, h1, h2]
  · intro kvs rest hne hcan hsz
    cases fuel with
    | zero => exact absurd hsz (Nat.not_lt_zero _)
    | succ f =>
      cases kvs with
      | nil => exact absurd rfl hne
      | cons p ps =>
          obtain ⟨k, v⟩ := p
          have hcan' : Canonical v = true ∧ CanonicalMembers ps = true := by
            simpa [CanonicalMembers] using hcan
          cases ps with
          | nil =>
              have hsz' : msize v + 1 < f + 1 := by simpa [msizeD] using hsz
              have h1 := (IH f (by omega)).1 v ('\x7d' :: rest) hcan'.1 (by omega)
                (by rfl)
              have hren : renderMembers [(k, v)] ++ '\x7d' :: rest
                  = '"' :: (escapeChars k.data ++ ('"' :: (':' :: (renderC v
                      ++ '\x7d' :: rest)))) := by
                simp [renderMembers]
              rw [parseMembers.eq_def, hren]
              simp +decide [parseStrBody_escape, h1, string_mk_data]
          | cons q qs =>
              have hexp : msizeD ((k, v) :: q :: qs) = msize v + msizeD (q :: qs) + 1 := by
                simp [msizeD]
              have hpos := msizeD_pos q qs
              have h1 := (IH f (by omega)).1 v
                (',' :: (renderMembers (q :: qs) ++ '\x7d' :: rest)) hcan'.1
                (by omega) (by rfl)
              have h2 := (IH f (by omega)).2.2 (q :: qs) rest (List.cons_ne_nil q qs)
                hcan'.2 (by omega)
              have hren : renderMembers ((k, v) :: q :: qs) ++ '\x7d' :: rest
                  = '"' :: (escapeChars k.data ++ ('"' :: (':' :: (renderC v
                      ++ (',' :: (renderMembers (q :: qs) ++ '\x7d' :: rest)))))) := by
                simp [renderMembers]
              rw [parseMembers.eq_def, hren]
              simp +decide [parseStrBody_escape, h1, h2, string_mk_data]



mutual

theorem msize_lt_len (v : PyVal) : msize v < 2 * (renderC v).length := by
  cases v with
  | none => simp [msize, renderC]
  | bool b => cases b <;> simp [msize, renderC]
  | int i =>
      cases i with
      | ofNat n =>
          have h1 : 1 ≤ (natDigitsBE n).length := by
            cases hnn : natDigitsBE n with
            | nil => exact absurd hnn (natDigitsBE_ne_nil n)
            | cons c cs => simp
          simp only [msize, renderC]
          omega
      | negSucc m =>
          simp only [msize, renderC, List.length_cons]
          omega
  | str s =>
      simp only [msize, renderC, List.length_cons, List.length_append,
        List.length_singleton]
      omega
  | bytes s =>
      simp only [msize, renderC, List.length_cons, List.length_append,
        List.length_singleton]
      omega
  | list xs =>
      cases xs with
      | nil => simp [msize, msizeL, renderC]
      | cons x xs =>
          have h := msizeL_le_len x xs
          simp only [msize, renderC, List.length_cons, List.length_append,
            List.length_singleton]
          omega
  | dict kvs =>
      cases kvs with
      | nil => simp [msize, msizeD, renderC]
      | cons p ps =>
          have h := msizeD_le_len p ps
          simp only [msize, renderC, List.length_cons, List.length_append,
            List.length_singleton]
          omega
termination_by sizeOf v

theorem msizeL_le_len (x : PyVal) (xs : List PyVal) :
    msizeL (x :: xs) ≤ 2 * (renderElems (x :: xs)).length := by
  cases xs with
  | nil =>
      have h := msize_lt_len x
      simp only [msizeL, renderElems]
      omega
  | cons y ys =>
      have h1 := msize_lt_len x
      have h2 := msizeL_le_len y ys
      have hd : msizeL (y :: ys) = msize y + msizeL ys + 1 := by simp [msizeL]
      simp only [msizeL, renderElems, List.length_append, List.length_cons]
      omega
termination_by sizeOf (x :: xs)

theorem msizeD_le_len (p : String × PyVal) (ps : List (String × PyVal)) :
    msizeD (p :: ps) ≤ 2 * (renderMembers (p :: ps)).length := by
  obtain ⟨k, v⟩ := p
  cases ps with
  | nil =>
      have h := msize_lt_len v
      simp only [msizeD, renderMembers, List.length_append, List.length_cons,
        List.length_singleton]
      omega
  | cons q qs =>
      have h1 := msize_lt_len v
      have h2 := msizeD_le_len q qs
      have hd : msizeD (q :: qs) = msize q.2 + msizeD qs + 1 := by
        obtain ⟨k2, v2⟩ := q
        simp [msizeD]
      simp only [msizeD, renderMembers, List.length_append, List.length_cons,
        List.length_singleton]
      omega
termination_by sizeOf (p :: ps)

end

/-- Round trip of the JSON text capability: parsing the rendered form of a
canonical value recovers the value. -/
theorem parse_render (v : PyVal) (h : Canonical v = true) : parse (render v) = some v := by
  have hm := msize_lt_len v
  have h1 := (rt (2 * (renderC v).length + 2)).1 v [] h (by omega) (by rfl)
  rw [List.append_nil] at h1
  unfold parse render
  simp [h1]

/-! ## The codec of the adapter (`JSON._decode` / `JSON._encode`) -/

/-- Behaviour of `json.JSONDecoder().decode` (the configured decoder of the
client, an external capability): on a string it parses the JSON text
(raising `JSONDecodeError` on malformed text, "Extra data" included); on any
non-string value its whitespace regex raises `TypeError`. -/
def json_decode : PyVal → Except PyErr PyVal
  | PyVal.str s =>
      match parse s with
      | some v => Except.ok v
      | Option.none => Except.error PyErr.jsonDecodeError
  | _ => Except.error PyErr.typeError

/-- Behaviour of the Python attribute access `obj.decode()`: byte sequences
decode to their text; every other value has no `decode` attribute and the
access raises `AttributeError`. -/
def pyDecodeMethod : PyVal → Except PyErr PyVal
  | PyVal.bytes s => Except.ok (PyVal.str s)
  | _ => Except.error PyErr.attributeError

/-- Text path of decode step 2 applied to one leaf, as the spec words it:
parse the leaf's text with the configured decoder and treat a null result as
a parse failure.  Used by the spec-modelled `decode_list`. -/
def textLeaf (dec : PyVal → Except PyErr PyVal) (s : String) : Except PyErr PyVal :=
  match dec (PyVal.str s) with
  | Except.ok PyVal.none => Except.error PyErr.jsonDecodeError
  | Except.ok v => Except.ok v
  | Except.error e => Except.error e

mutual

/-- Modelled from the spec: `decode_list` (imported from
`.decoders`, a module of this repository that is not under `src/`).  Spec
§4.1 step 3: when the payload is a pre-structured sequence/scalar,
re-interpret it recursively, converting any byte-sequence (or string-shaped)
leaf through step 2's text path and leaving already-scalar leaves untouched,
assembling an ordered sequence; a leaf that no stage can represent surfaces
the decode failure (step 4). -/
def decode_list (dec : PyVal → Except PyErr PyVal) : PyVal → Except PyErr PyVal
  | PyVal.bytes s => textLeaf dec s
  | PyVal.str s => textLeaf dec s
  | PyVal.list xs => (decodeElems dec xs).map PyVal.list
  | v => Except.ok v

/-- Element-wise structural decoding of a sequence (part of the
spec-modelled `decode_list`); the first failing leaf aborts. -/
def decodeElems (dec : PyVal → Except PyErr PyVal) :
    List PyVal → Except PyErr (List PyVal)
  | [] => Except.ok []
  | x :: xs =>
      match decode_list dec x with
      | Except.ok y => (decodeElems dec xs).map (fun ys => y :: ys)
      | Except.error e => Except.error e

end

/-- Inner handler of `JSON._decode` (the body of the `except TypeError:`
clause, lines 89-93 of the source): retry the decoder on `obj.decode()`,
falling back to `decode_list(obj)` only when that whole retried expression
raises `AttributeError` (from the attribute access, or from the decoder
itself).  Note that the retried decoder result is returned as is — without
the null guard of the first attempt — and that a `JSONDecodeError` raised
by the retry propagates (the inner `try` catches only `AttributeError`). -/
def decodeInner (dec : PyVal → Except PyErr PyVal) (obj : PyVal) : Except PyErr PyVal :=
  match pyDecodeMethod obj with
  | Except.ok s =>
      match dec s with
      | Except.error PyErr.attributeError => decode_list dec obj
      | r => r
  | Except.error PyErr.attributeError => decode_list dec obj
  | Except.error e => Except.error e

/-- First decode attempt of `_decode` with its null guard (`x = decode(obj);
if x is None: raise TypeError`). -/
def json_decode_attempt (dec : PyVal → Except PyErr PyVal) (obj : PyVal) :
    Except PyErr PyVal :=
  match dec obj with
  | Except.ok PyVal.none => Except.error PyErr.typeError
  | r => r

/-- Embedding of `JSON._decode` (source lines 79-95), parameterised by the
configured decoder `dec` (the `self.__decoder__` constructor argument):

* `None` is returned immediately;
* otherwise `dec obj` is attempted; a non-null result is returned, a null
  result raises `TypeError` into the `except TypeError` handler
  (`decodeInner`), a `TypeError` goes to the same handler, and an
  `AttributeError` or `JSONDecodeError` falls back to `decode_list`. -/
def _decode (dec : PyVal → Except PyErr PyVal) (obj : PyVal) : Except PyErr PyVal :=
  match obj with
  | PyVal.none => Except.ok PyVal.none
  | _ =>
      match json_decode_attempt dec obj with
      | Except.ok v => Except.ok v
      | Except.error PyErr.typeError => decodeInner dec obj
      | Except.error PyErr.attributeError => decode_list dec obj
      | Except.error PyErr.jsonDecodeError => decode_list dec obj
      | Except.error e => Except.error e

/-- Embedding of `JSON._encode` (source lines 97-99): delegate to the
encode capability.  `json.JSONEncoder().encode` renders every canonical
(byte-free) value and raises `TypeError` on non-serializable input. -/
def _encode (obj : PyVal) : Except PyErr String :=
  if Canonical obj then Except.ok (render obj) else Except.error PyErr.typeError

/-! ## The `JSON.SET` boolean-success transform -/

/-- Python truthiness of a value (the implicit bool conversion used by
`r and ...`): `None`, `False`, zero, and empty strings/bytes/sequences/
mappings are falsy. -/
def pyTruthy : PyVal → Bool
  | PyVal.none => false
  | PyVal.bool b => b
  | PyVal.int n => n != 0
  | PyVal.str s => s != ""
  | PyVal.bytes s => s != ""
  | PyVal.list xs => !xs.isEmpty
  | PyVal.dict kvs => !kvs.isEmpty

/-- Modelled from the spec: `nativestr` (imported from `..helpers`, a module
of this repository that is not under `src/`).  The "native-string form" of a
raw response: a byte sequence is decoded to its native string, anything
else is returned unchanged. -/
def nativestr : PyVal → PyVal
  | PyVal.bytes s => PyVal.str s
  | v => v

/-- Python `==` between a value and a string literal: true exactly for an
equal string (values of other types never equal a string). -/
def pyEqStr (v : PyVal) (s : String) : Bool :=
  match v with
  | PyVal.str t => t == s
  | _ => false

/-- Embedding of the transform registered for `"JSON.SET"` (source line 51):
`lambda r: r and nativestr(r) == "OK"`.  Python's `and` returns its left
operand when that operand is falsy, and otherwise the right operand — here
the boolean of the exact, case-sensitive comparison with `"OK"`. -/
def jsonSetCallback (r : PyVal) : PyVal :=
  if pyTruthy r then PyVal.bool (pyEqStr (nativestr r) "OK") else r

/-! ## Dispatch table, client construction and pipeline -/

/-- A response transform: raw wire response to decoded value, possibly
raising. -/
abbrev Transform := PyVal → Except PyErr PyVal

/-- Decimal text to integer (`int(text)`), `ValueError` on malformed text. -/
def pyIntOfText (s : String) : Except PyErr PyVal :=
  match s.data with
  | '-' :: c :: cs =>
      if isDigitCh c then
        match parseDigits (c :: cs) 0 with
        | (n, []) => Except.ok (PyVal.int (-(Int.ofNat n)))
        | _ => Except.error PyErr.valueError
      else Except.error PyErr.valueError
  | c :: cs =>
      if isDigitCh c then
        match parseDigits (c :: cs) 0 with
        | (n, []) => Except.ok (PyVal.int (Int.ofNat n))
        | _ => Except.error PyErr.valueError
      else Except.error PyErr.valueError
  | [] => Except.error PyErr.valueError

/-- Behaviour of the Python builtin `int` applied to a wire response (the
transform of `"JSON.CLEAR"`, `"JSON.DEL"`, `"JSON.FORGET"`), modelled at its
interface: integers and booleans convert, decimal text converts, anything
else raises. -/
def pyIntFn : Transform := fun r =>
  match r with
  | PyVal.int n => Except.ok (PyVal.int n)
  | PyVal.bool b => Except.ok (PyVal.int (if b then 1 else 0))
  | PyVal.str s => pyIntOfText s
  | PyVal.bytes s => pyIntOfText s
  | _ => Except.error PyErr.typeError

/-- Modelled from the spec: `bulk_of_jsons` (imported from `.decoders`, not
under `src/`): apply the given decode element-wise to a sequence of
independently-encoded sub-results, leaving absent (`None`) items as null
(multi-key fetch transform, spec §4.3 and §8). -/
def bulk_of_jsons (d : Transform) : Transform := fun b =>
  match b with
  | PyVal.list xs =>
      (xs.mapM (fun item =>
        match item with
        | PyVal.none => Except.ok PyVal.none
        | _ => d item)).map PyVal.list
  | _ => Except.error PyErr.typeError

/-- Embedding of the `self.MODULE_CALLBACKS` dictionary built in
`JSON.__init__` (source lines 45-67), parameterised by the configured
decoder bound into `self._decode`; entries in source order. -/
def MODULE_CALLBACKS (dec : PyVal → Except PyErr PyVal) : List (String × Transform) :=
  [("JSON.CLEAR", pyIntFn),
   ("JSON.DEL", pyIntFn),
   ("JSON.FORGET", pyIntFn),
   ("JSON.GET", _decode dec),
   ("JSON.MGET", bulk_of_jsons (_decode dec)),
   ("JSON.SET", fun r => Except.ok (jsonSetCallback r)),
   ("JSON.NUMINCRBY", _decode dec),
   ("JSON.NUMMULTBY", _decode dec),
   ("JSON.TOGGLE", _decode dec),
   ("JSON.STRAPPEND", _decode dec),
   ("JSON.STRLEN", _decode dec),
   ("JSON.ARRAPPEND", _decode dec),
   ("JSON.ARRINDEX", _decode dec),
   ("JSON.ARRINSERT", _decode dec),
   ("JSON.ARRLEN", _decode dec),
   ("JSON.ARRPOP", _decode dec),
   ("JSON.ARRTRIM", _decode dec),
   ("JSON.OBJLEN", _decode dec),
   ("JSON.OBJKEYS", _decode dec),
   ("JSON.RESP", _decode dec),
   ("JSON.DEBUG", _decode dec)]

/-- Registration failure of the transport's response-interpretation hook
(spec §4.3/§7: a `ConstructionError`, fatal at client construction). -/
inductive RegErr where
  | constructionError : RegErr
deriving DecidableEq

/-- Modelled from the spec: the underlying transport client
(`aioredis.client`, not under `src/`) at the interface the adapter uses: a
per-command response-callback registry, plus which command hooks the
transport supports (spec §4.3 allows registration to fail for an
unsupported hook). -/
structure RedisClient where
  response_callbacks : List (String × Transform)
  hookSupported : String → Bool

/-- Modelled from the spec: `client.set_response_callback` — register a
transform under a command name (new registrations shadow older ones);
registration of an unsupported hook fails. -/
def set_response_callback (c : RedisClient) (k : String) (t : Transform) :
    Except RegErr RedisClient :=
  if c.hookSupported k then
    Except.ok { c with response_callbacks := (k, t) :: c.response_callbacks }
  else Except.error RegErr.constructionError

/-- The registration loop of `JSON.__init__` (source lines 73-74): register
every entry of the table, propagating the first failure. -/
def registerAll (c : RedisClient) :
    List (String × Transform) → Except RegErr RedisClient
  | [] => Except.ok c
  | (k, t) :: rest =>
      match set_response_callback c k t with
      | Except.ok c2 => registerAll c2 rest
      | Except.error e => Except.error e

/-- The JSON client object after `JSON.__init__`: its frozen dispatch table,
the underlying client (with the registered hooks), and the configured
decoder. -/
structure JSONClient where
  MODULE_CALLBACKS : List (String × Transform)
  client : RedisClient
  dec : PyVal → Except PyErr PyVal

/-- Embedding of `JSON.__init__` (source lines 28-77): assign the table,
register every entry with the underlying client's hook, store the client
and the decoder.  A registration failure propagates out of construction. -/
def jsonInit (client : RedisClient) (dec : PyVal → Except PyErr PyVal) :
    Except RegErr JSONClient :=
  match registerAll client (MODULE_CALLBACKS dec) with
  | Except.ok c2 => Except.ok ⟨MODULE_CALLBACKS dec, c2, dec⟩
  | Except.error e => Except.error e

/-- The pipeline object of the module (source class `Pipeline`, lines
124-140): it stores the response-callback mapping handed to it, the pending
batch of command names, and the `_decode`/`_encode` functions that
`JSON.pipeline` copies onto it. -/
structure Pipeline where
  response_callbacks : List (String × Transform)
  command_stack : List String
  decodeFn : PyVal → Except PyErr PyVal
  encodeFn : PyVal → Except PyErr String

/-- Embedding of `JSON.pipeline` (source lines 101-121): the new pipeline is
constructed with `response_callbacks=self.MODULE_CALLBACKS` — the very
mapping of the immediate client — with an empty pending batch, and
receives `self._decode` (the decode bound to this client's configured
decoder) and `self._encode`. -/
def JSONClient.pipeline (j : JSONClient) : Pipeline :=
  ⟨j.MODULE_CALLBACKS, [], _decode j.dec, _encode⟩

/-- Modelled from the spec: response interpretation of the underlying
transport (spec §4.4/§6): the registered transform of the command name is
applied to the raw response; commands without a registered transform pass
the raw response through. -/
def applyCallback (cbs : List (String × Transform)) (name : String) (raw : PyVal) :
    Except PyErr PyVal :=
  match cbs.find? (fun p => p.1 == name) with
  | some p => p.2 raw
  | Option.none => Except.ok raw

/-- Modelled from the spec: immediate-mode execution (spec §4.4): the
transport sends the command and decodes the raw response with the callback
registered on the underlying client for that command name. -/
def JSONClient.execute (j : JSONClient) (name : String) (raw : PyVal) :
    Except PyErr PyVal :=
  applyCallback j.client.response_callbacks name raw

/-- Modelled from the spec: queueing a command into the pending batch
(append-only, no network interaction). -/
def Pipeline.enqueue (p : Pipeline) (name : String) : Pipeline :=
  { p with command_stack := p.command_stack ++ [name] }

/-- Modelled from the spec: batched flush (spec §4.4): the transport returns
one raw response per queued command in queue order, and each response is
decoded positionally with the transform registered for its originating
command. -/
def Pipeline.flushWith (p : Pipeline) (raws : List PyVal) :
    List (Except PyErr PyVal) :=
  (p.command_stack.zip raws).map (fun q => applyCallback p.response_callbacks q.1 q.2)

/-! ## Representable raw payloads (spec section 4.1) -/

/-- A text payload is representable when it parses to a non-null canonical
value: spec §4.1 step 2 treats a null parse result as a parse failure, and
§7 reserves null for the absent wire signal, so the text `"null"` has no
representable canonical value. -/
def textRepresentable (s : String) : Bool :=
  match parse s with
  | some PyVal.none => false
  | some _ => true
  | Option.none => false

mutual

/-- Representable raw payloads, written from the spec's `RawResponse`
description (§3, §4.1): the absent signal; scalars; self-describing encoded
text (bytes or string) parsing to a non-null value; pre-structured
sequences of representable leaves; pre-structured mappings. -/
def Representable : PyVal → Bool
  | PyVal.none => true
  | PyVal.bool _ => true
  | PyVal.int _ => true
  | PyVal.str s => textRepresentable s
  | PyVal.bytes s => textRepresentable s
  | PyVal.list xs => RepresentableElems xs
  | PyVal.dict _ => true

/-- Representability of every leaf of a pre-structured sequence. -/
def RepresentableElems : List PyVal → Bool
  | [] => true
  | x :: xs => Representable x && RepresentableElems xs

end

/-- The one exception the decode chain makes to the spec's null policy: a
top-level byte-sequence payload whose decoded text parses to JSON null. -/
def topLevelNullBytes : PyVal → Bool
  | PyVal.bytes s =>
      match parse s with
      | some PyVal.none => true
      | _ => false
  | _ => false

/-! ## The operations of the client as state transformers -/

/-- Observable result of one client operation. -/
inductive OpResult where
  | resp : Except PyErr PyVal → OpResult
  | pipe : Pipeline → OpResult
  | enc : Except PyErr String → OpResult

/-- One operation of the constructed client. -/
inductive ClientOp where
  | execOp : String → PyVal → ClientOp
  | pipelineOp : ClientOp
  | decodeOp : PyVal → ClientOp
  | encodeOp : PyVal → ClientOp

/-- Each public operation of the constructed client as a state transformer
returning the (possibly updated) client object and the observable result.
This mirrors the source faithfully: after `__init__`, no method of `JSON`
assigns `self.MODULE_CALLBACKS` (or any other attribute) — `pipeline`,
`_decode`, `_encode` and the command methods only read the object — so
every operation returns the client state unchanged. -/
def applyOp (j : JSONClient) : ClientOp → JSONClient × OpResult
  | ClientOp.execOp name raw => (j, OpResult.resp (j.execute name raw))
  | ClientOp.pipelineOp => (j, OpResult.pipe j.pipeline)
  | ClientOp.decodeOp raw => (j, OpResult.resp (_decode j.dec raw))
  | ClientOp.encodeOp v => (j, OpResult.enc (_encode v))

/-- Run a sequence of operations, threading the client state. -/
def runOps (j : JSONClient) : List ClientOp → JSONClient
  | [] => j
  | op :: ops => runOps (applyOp j op).1 ops

/-! ## Characterisation of the decode fallback chain -/




theorem textLeaf_cases (s : String) :
    (textRepresentable s = true →
      ∃ w, textLeaf json_decode s = Except.ok w ∧ w ≠ PyVal.none)
  ∧ (textRepresentable s = false →
      textLeaf json_decode s = Except.error PyErr.jsonDecodeError) := by
  unfold textLeaf textRepresentable json_decode
  cases hp : parse s with
  | none => simp [hp]
  | some v => cases v <;> simp [hp]

mutual

theorem decode_list_char (v : PyVal) :
    (Representable v = true → ∃ w, decode_list json_decode v = Except.ok w)
  ∧ (Representable v = false →
      decode_list json_decode v = Except.error PyErr.jsonDecodeError) := by
  cases v with
  | none =>
      refine ⟨fun _ => ⟨PyVal.none, by simp [decode_list]⟩, fun h => ?_⟩
      simp [Representable] at h
  | bool b =>
      refine ⟨fun _ => ⟨PyVal.bool b, by simp [decode_list]⟩, fun h => ?_⟩
      simp [Representable] at h
  | int n =>
      refine ⟨fun _ => ⟨PyVal.int n, by simp [decode_list]⟩, fun h => ?_⟩
      simp [Representable] at h
  | dict kvs =>
      refine ⟨fun _ => ⟨PyVal.dict kvs, by simp [decode_list]⟩, fun h => ?_⟩
      simp [Representable] at h
  | str s =>
      constructor
      · intro h
        obtain ⟨w, hw, _⟩ := (textLeaf_cases s).1 (by simpa [Representable] using h)
        exact ⟨w, by simpa [decode_list] using hw⟩
      · intro h
        have h2 := (textLeaf_cases s).2 (by simpa [Representable] using h)
        simpa [decode_list] using h2
  | bytes s =>
      constructor
      · intro h
        obtain ⟨w, hw, _⟩ := (textLeaf_cases s).1 (by simpa [Representable] using h)
        exact ⟨w, by simpa [decode_list] using hw⟩
      · intro h
        have h2 := (textLeaf_cases s).2 (by simpa [Representable] using h)
        simpa [decode_list] using h2
  | list xs =>
      constructor
      · intro h
        obtain ⟨ws, hws⟩ := (decodeElems_char xs).1 (by simpa [Representable] using h)
        exact ⟨PyVal.list ws, by simp [decode_list, hws, Except.map]⟩
      · intro h
        have h2 := (decodeElems_char xs).2 (by simpa [Representable] using h)
        simp [decode_list, h2, Except.map]
termination_by sizeOf v

theorem decodeElems_char (xs : List PyVal) :
    (RepresentableElems xs = true →
      ∃ ws, decodeElems json_decode xs = Except.ok ws)
  ∧ (RepresentableElems xs = false →
      decodeElems json_decode xs = Except.error PyErr.jsonDecodeError) := by
  cases xs with
  | nil =>
      refine ⟨fun _ => ⟨[], by simp [decodeElems]⟩, fun h => ?_⟩
      simp [RepresentableElems] at h
  | cons x xs =>
      constructor
      · intro h
        have hx : Representable x = true ∧ RepresentableElems xs = true := by
          simpa [RepresentableElems] using h
        obtain ⟨w, hw⟩ := (decode_list_char x).1 hx.1
        obtain ⟨ws, hws⟩ := (decodeElems_char xs).1 hx.2
        exact ⟨w :: ws, by simp [decodeElems, hw, hws, Except.map]⟩
      · intro h
        cases hrx : Representable x with
        | false =>
            have h2 := (decode_list_char x).2 hrx
            simp [decodeElems, h2]
        | true =>
            have hx : RepresentableElems xs = false := by
              simpa [RepresentableElems, hrx] using h
            obtain ⟨w, hw⟩ := (decode_list_char x).1 hrx
            have h2 := (decodeElems_char xs).2 hx
            simp [decodeElems, hw, h2, Except.map]
termination_by sizeOf xs

end

theorem textLeaf_ne_none (s : String) :
    textLeaf json_decode s ≠ Except.ok PyVal.none := by
  unfold textLeaf json_decode
  cases hp : parse s with
  | none => simp [hp]
  | some v => cases v <;> simp [hp]

theorem decode_list_ne_none (v : PyVal) (h : v ≠ PyVal.none) :
    decode_list json_decode v ≠ Except.ok PyVal.none := by
  cases v with
  | none => exact absurd rfl h
  | bool b => simp [decode_list]
  | int n => simp [decode_list]
  | dict kvs => simp [decode_list]
  | str s => simpa [decode_list] using textLeaf_ne_none s
  | bytes s => simpa [decode_list] using textLeaf_ne_none s
  | list xs =>
      cases he : decodeElems json_decode xs <;> simp [decode_list, he, Except.map]

theorem _decode_master (obj : PyVal) :
    (Representable obj = true → ∃ v, _decode json_decode obj = Except.ok v)
  ∧ (Representable obj = false → topLevelNullBytes obj = false →
      _decode json_decode obj = Except.error PyErr.jsonDecodeError)
  ∧ (topLevelNullBytes obj = true → _decode json_decode obj = Except.ok PyVal.none) := by
  cases obj with
  | none =>
      exact ⟨fun _ => ⟨PyVal.none, rfl⟩, fun h => by simp [Representable] at h,
        fun h => by simp [topLevelNullBytes] at h⟩
  | bool b =>
      refine ⟨fun _ => ⟨PyVal.bool b, ?_⟩, fun h => by simp [Representable] at h,
        fun h => by simp [topLevelNullBytes] at h⟩
      simp [_decode, json_decode_attempt, json_decode, decodeInner, pyDecodeMethod,
        decode_list]
  | int n =>
      refine ⟨fun _ => ⟨PyVal.int n, ?_⟩, fun h => by simp [Representable] at h,
        fun h => by simp [topLevelNullBytes] at h⟩
      simp [_decode, json_decode_attempt, json_decode, decodeInner, pyDecodeMethod,
        decode_list]
  | dict kvs =>
      refine ⟨fun _ => ⟨PyVal.dict kvs, ?_⟩, fun h => by simp [Representable] at h,
        fun h => by simp [topLevelNullBytes] at h⟩
      simp [_decode, json_decode_attempt, json_decode, decodeInner, pyDecodeMethod,
        decode_list]
  | str s =>
      cases hp : parse s with
      | none =>
          have h2 := (textLeaf_cases s).2 (by simp [textRepresentable, hp])
          refine ⟨fun h => ?_, fun _ _ => ?_, fun h => by simp [topLevelNullBytes] at h⟩
          · simp [Representable, textRepresentable, hp] at h
          · simp [_decode, json_decode_attempt, json_decode, hp, decode_list, h2]
      | some v =>
          cases v with
          | none =>
              have h2 := (textLeaf_cases s).2 (by simp [textRepresentable, hp])
              refine ⟨fun h => ?_, fun _ _ => ?_,
                fun h => by simp [topLevelNullBytes] at h⟩
              · simp [Representable, textRepresentable, hp] at h
              · simp [_decode, json_decode_attempt, json_decode, hp, decodeInner,
                  pyDecodeMethod, decode_list, h2]
          | bool b =>
              refine ⟨fun _ => ⟨PyVal.bool b, ?_⟩,
                fun h => by simp [Representable, textRepresentable, hp] at h,
                fun h => by simp [topLevelNullBytes] at h⟩
              simp [_decode, json_decode_attempt, json_decode, hp]
          | int n =>
              refine ⟨fun _ => ⟨PyVal.int n, ?_⟩,
                fun h => by simp [Representable, textRepresentable, hp] at h,
                fun h => by simp [topLevelNullBytes] at h⟩
              simp [_decode, json_decode_attempt, json_decode, hp]
          | str t =>
              refine ⟨fun _ => ⟨PyVal.str t, ?_⟩,
                fun h => by simp [Representable, textRepresentable, hp] at h,
                fun h => by simp [topLevelNullBytes] at h⟩
              simp [_decode, json_decode_attempt, json_decode, hp]
          | bytes t =>
              refine ⟨fun _ => ⟨PyVal.bytes t, ?_⟩,
                fun h => by simp [Representable, textRepresentable, hp] at h,
                fun h => by simp [topLevelNullBytes] at h⟩
              simp [_decode, json_decode_attempt, json_decode, hp]
          | list ys =>
              refine ⟨fun _ => ⟨PyVal.list ys, ?_⟩,
                fun h => by simp [Representable, textRepresentable, hp] at h,
                fun h => by simp [topLevelNullBytes] at h⟩
              simp [_decode, json_decode_attempt, json_decode, hp]
          | dict kvs =>
              refine ⟨fun _ => ⟨PyVal.dict kvs, ?_⟩,
                fun h => by simp [Representable, textRepresentable, hp] at h,
                fun h => by simp [topLevelNullBytes] at h⟩
              simp [_decode, json_decode_attempt, json_decode, hp]
  | bytes s =>
      cases hp : parse s with
      | none =>
          refine ⟨fun h => ?_, fun _ _ => ?_,
            fun h => by simp [topLevelNullBytes, hp] at h⟩
          · simp [Representable, textRepresentable, hp] at h
          · simp [_decode, json_decode_attempt, json_decode, hp, decodeInner,
              pyDecodeMethod]
      | some v =>
          cases v with
          | none =>
              refine ⟨fun h => by simp [Representable, textRepresentable, hp] at h,
                fun _ h => by simp [topLevelNullBytes, hp] at h, fun _ => ?_⟩
              simp [_decode, json_decode_attempt, json_decode, hp, decodeInner,
                pyDecodeMethod]
          | bool b =>
              refine ⟨fun _ => ⟨PyVal.bool b, ?_⟩,
                fun h => by simp [Representable, textRepresentable, hp] at h,
                fun h => by simp [topLevelNullBytes, hp] at h⟩
              simp [_decode, json_decode_attempt, json_decode, hp, decodeInner,
                pyDecodeMethod]
          | int n =>
              refine ⟨fun _ => ⟨PyVal.int n, ?_⟩,
                fun h => by simp [Representable, textRepresentable, hp] at h,
                fun h => by simp [topLevelNullBytes, hp] at h⟩
              simp [_decode, json_decode_attempt, json_decode, hp, decodeInner,
                pyDecodeMethod]
          | str t =>
              refine ⟨fun _ => ⟨PyVal.str t, ?_⟩,
                fun h => by simp [Representable, textRepresentable, hp] at h,
                fun h => by simp [topLevelNullBytes, hp] at h⟩
              simp [_decode, json_decode_attempt, json_decode, hp, decodeInner,
                pyDecodeMethod]
          | bytes t =>
              refine ⟨fun _ => ⟨PyVal.bytes t, ?_⟩,
                fun h => by simp [Representable, textRepresentable, hp] at h,
                fun h => by simp [topLevelNullBytes, hp] at h⟩
              simp [_decode, json_decode_attempt, json_decode, hp, decodeInner,
                pyDecodeMethod]
          | list ys =>
              refine ⟨fun _ => ⟨PyVal.list ys, ?_⟩,
                fun h => by simp [Representable, textRepresentable, hp] at h,
                fun h => by simp [topLevelNullBytes, hp] at h⟩
              simp [_decode, json_decode_attempt, json_decode, hp, decodeInner,
                pyDecodeMethod]
          | dict kvs =>
              refine ⟨fun _ => ⟨PyVal.dict kvs, ?_⟩,
                fun h => by simp [Representable, textRepresentable, hp] at h,
                fun h => by simp [topLevelNullBytes, hp] at h⟩
              simp [_decode, json_decode_attempt, json_decode, hp, decodeInner,
                pyDecodeMethod]
  | list xs =>
      refine ⟨fun h => ?_, fun h _ => ?_, fun h => by simp [topLevelNullBytes] at h⟩
      · obtain ⟨w, hw⟩ := (decode_list_char (PyVal.list xs)).1
          (by simpa [Representable] using h)
        exact ⟨w, by simp [_decode, json_decode_attempt, json_decode, decodeInner,
          pyDecodeMethod, hw]⟩
      · have h2 := (decode_list_char (PyVal.list xs)).2 (by simpa [Representable] using h)
        simp [_decode, json_decode_attempt, json_decode, decodeInner,
          pyDecodeMethod, h2]

/-! ## Registration and lookup lemmas -/



theorem registerAll_ok (tbl : List (String × Transform)) :
    ∀ c c2, registerAll c tbl = Except.ok c2 →
      c2.response_callbacks = tbl.reverse ++ c.response_callbacks
        ∧ c2.hookSupported = c.hookSupported := by
  induction tbl with
  | nil =>
      intro c c2 h
      simp only [registerAll] at h
      cases h
      simp
  | cons kt rest ih =>
      obtain ⟨k, t⟩ := kt
      intro c c2 h
      by_cases hs : c.hookSupported k = true
      · simp only [registerAll, set_response_callback, hs, if_pos] at h
        have h2 := ih _ _ h
        simp only [h2.1, h2.2]
        constructor
        · simp [List.reverse_cons, List.append_assoc]
        · trivial
      · simp only [registerAll, set_response_callback, hs, if_neg, Bool.false_eq_true,
          if_false] at h
        cases h

theorem registerAll_isOk (tbl : List (String × Transform)) :
    ∀ c, (∀ k ∈ tbl.map Prod.fst, c.hookSupported k = true) →
      ∃ c2, registerAll c tbl = Except.ok c2 := by
  induction tbl with
  | nil => intro c _; exact ⟨c, rfl⟩
  | cons kt rest ih =>
      obtain ⟨k, t⟩ := kt
      intro c hsup
      have hk : c.hookSupported k = true := hsup k (by simp)
      have hrest : ∀ k2 ∈ rest.map Prod.fst,
          (RedisClient.mk ((k, t) :: c.response_callbacks) c.hookSupported).hookSupported k2
            = true := by
        intro k2 hk2
        exact hsup k2 (by simp [hk2])
      obtain ⟨c2, hc2⟩ := ih _ hrest
      exact ⟨c2, by simp [registerAll, set_response_callback, hk, hc2]⟩

theorem registerAll_fails (tbl : List (String × Transform)) :
    ∀ c, (∃ k ∈ tbl.map Prod.fst, c.hookSupported k = false) →
      registerAll c tbl = Except.error RegErr.constructionError := by
  induction tbl with
  | nil => intro c h; simp at h
  | cons kt rest ih =>
      obtain ⟨k, t⟩ := kt
      intro c h
      by_cases hk : c.hookSupported k = true
      · obtain ⟨k2, hmem, hk2⟩ := h
        simp only [List.map_cons, List.mem_cons] at hmem
        rcases hmem with rfl | hmem
        · rw [hk] at hk2; cases hk2
        · have := ih (RedisClient.mk ((k, t) :: c.response_callbacks) c.hookSupported)
            ⟨k2, hmem, hk2⟩
          simp [registerAll, set_response_callback, hk, this]
      · have hk' : c.hookSupported k = false := by
          cases hv : c.hookSupported k
          · rfl
          · exact absurd hv hk
        simp [registerAll, set_response_callback, hk']

theorem MODULE_CALLBACKS_keys (dec : PyVal → Except PyErr PyVal) :
    (MODULE_CALLBACKS dec).map Prod.fst
      = ["JSON.CLEAR", "JSON.DEL", "JSON.FORGET", "JSON.GET", "JSON.MGET",
         "JSON.SET", "JSON.NUMINCRBY", "JSON.NUMMULTBY", "JSON.TOGGLE",
         "JSON.STRAPPEND", "JSON.STRLEN", "JSON.ARRAPPEND", "JSON.ARRINDEX",
         "JSON.ARRINSERT", "JSON.ARRLEN", "JSON.ARRPOP", "JSON.ARRTRIM",
         "JSON.OBJLEN", "JSON.OBJKEYS", "JSON.RESP", "JSON.DEBUG"] := rfl

theorem applyCallback_reverse_append (tbl : List (String × Transform)) :
    ∀ (old : List (String × Transform)) (name : String) (raw : PyVal),
      (tbl.map Prod.fst).Nodup → name ∈ tbl.map Prod.fst →
      applyCallback (tbl.reverse ++ old) name raw = applyCallback tbl name raw := by
  induction tbl with
  | nil => intro old name raw _ hmem; simp at hmem
  | cons kt rest ih =>
      obtain ⟨k, t⟩ := kt
      intro old name raw hnd hmem
      simp only [List.map_cons, List.nodup_cons] at hnd
      by_cases hk : name = k
      · subst hk
        have hnone : (rest.reverse).find? (fun p => p.1 == name) = Option.none := by
          rw [List.find?_eq_none]
          intro p hp
          simp only [beq_iff_eq]
          intro hpe
          exact hnd.1 (by
            rw [← hpe]
            exact List.mem_map_of_mem Prod.fst (List.mem_reverse.1 hp))
        unfold applyCallback
        rw [List.reverse_cons, List.append_assoc, List.find?_append, hnone]
        simp
      · have hmem2 : name ∈ rest.map Prod.fst := by
          simp only [List.map_cons, List.mem_cons] at hmem
          exact hmem.resolve_left hk
        have h1 := ih ((k, t) :: old) name raw hnd.2 hmem2
        rw [List.reverse_cons, List.append_assoc, List.singleton_append, h1]
        unfold applyCallback
        simp only [List.find?]
        have : (k == name) = false := by
          simp [beq_iff_eq]
          intro he
          exact hk he.symm
        simp [this]

/-! ## The claims -/



theorem textLeaf_of_parse (s : String) (v : PyVal) (hp : parse s = some v)
    (hv : v ≠ PyVal.none) : textLeaf json_decode s = Except.ok v := by
  cases v with
  | none => exact absurd rfl hv
  | bool b => simp [textLeaf, json_decode, hp]
  | int n => simp [textLeaf, json_decode, hp]
  | str t => simp [textLeaf, json_decode, hp]
  | bytes t => simp [textLeaf, json_decode, hp]
  | list ys => simp [textLeaf, json_decode, hp]
  | dict kvs => simp [textLeaf, json_decode, hp]

/-- The decode-encode composite of the round-trip property (spec §8):
encode the value, then decode the resulting text. -/
def roundTrip (v : PyVal) : Except PyErr PyVal :=
  match _encode v with
  | Except.ok s => _decode json_decode (PyVal.str s)
  | Except.error e => Except.error e

/-- C1 (counterexample): the raw response `b"ok"` is non-null, non-empty,
and its native-string form equals the acknowledgement token `"OK"`
case-insensitively, yet the `"JSON.SET"` transform returns `False` — the
comparison in the source is exact, not case-insensitive. -/
theorem c1_set_transform_counterexample :
    pyTruthy (PyVal.bytes ("ok")) = true
  ∧ nativestr (PyVal.bytes ("ok")) = PyVal.str ("ok")
  ∧ ("ok").data.map Char.toLower = ("OK").data.map Char.toLower
  ∧ jsonSetCallback (PyVal.bytes ("ok")) = PyVal.bool false := by
  refine ⟨rfl, rfl, by decide, rfl⟩

/-- C1 (amended): for every truthy raw response `r`, the `"JSON.SET"`
transform returns `True` iff the native-string form of `r` equals `"OK"`
exactly (case-sensitively), and returns `False` for every other truthy
response. -/
theorem c1_set_transform_amended (r : PyVal) (h : pyTruthy r = true) :
    (jsonSetCallback r = PyVal.bool true ↔ nativestr r = PyVal.str "OK")
  ∧ (nativestr r ≠ PyVal.str "OK" → jsonSetCallback r = PyVal.bool false) := by
  cases hv : nativestr r <;> simp [jsonSetCallback, h, pyEqStr, hv]

/-- C1 (witness): the amended statement at the truthy response `b"OK"`. -/
theorem c1_set_transform_amended_witness :
    (jsonSetCallback (PyVal.bytes ("OK")) = PyVal.bool true
      ↔ nativestr (PyVal.bytes ("OK")) = PyVal.str "OK")
  ∧ (nativestr (PyVal.bytes ("OK")) ≠ PyVal.str "OK" →
      jsonSetCallback (PyVal.bytes ("OK")) = PyVal.bool false) :=
  c1_set_transform_amended (PyVal.bytes ("OK")) rfl

/-- C10: for every falsy raw response (null or an empty byte/string
sequence, empty sequence or mapping, zero, `False`), the `"JSON.SET"`
transform returns the response itself, not the boolean `False`; its result
is a boolean exactly for truthy responses. -/
theorem c10_set_transform_falsy (r : PyVal) :
    (pyTruthy r = false → jsonSetCallback r = r)
  ∧ (pyTruthy r = true → ∃ b, jsonSetCallback r = PyVal.bool b) := by
  constructor
  · intro h
    simp [jsonSetCallback, h]
  · intro h
    exact ⟨pyEqStr (nativestr r) "OK", by simp [jsonSetCallback, h]⟩

/-- C10 (witness): the empty byte sequence is returned unchanged; a
non-empty one yields a boolean. -/
theorem c10_set_transform_falsy_witness :
    jsonSetCallback (PyVal.bytes ("")) = PyVal.bytes ("")
  ∧ ∃ b, jsonSetCallback (PyVal.bytes ("x")) = PyVal.bool b :=
  ⟨(c10_set_transform_falsy (PyVal.bytes (""))).1 rfl,
   (c10_set_transform_falsy (PyVal.bytes ("x"))).2 rfl⟩

/-- C5: `_decode` maps the absent wire signal to null immediately,
whatever decoder is configured (the decoder and the fallback stages are
never consulted). -/
theorem c5_absence (dec : PyVal → Except PyErr PyVal) :
    _decode dec PyVal.none = Except.ok PyVal.none := rfl

/-- C2 (counterexample): `b"null"` is a non-absent raw payload whose decoded
text parses to JSON null, and `_decode` returns null for it: the retried
decode inside the `except TypeError:` handler has no null guard. -/
theorem c2_null_guard_counterexample :
    PyVal.bytes ("null") ≠ PyVal.none
  ∧ parse ("null") = some PyVal.none
  ∧ _decode json_decode (PyVal.bytes ("null")) = Except.ok PyVal.none := by
  refine ⟨by simp, rfl, rfl⟩

/-- C2 (amended): the null guard protects every non-absent payload that is
not a byte sequence — for those, `_decode` never returns null — but a byte
sequence whose decoded text parses to JSON null decodes to null. -/
theorem c2_null_guard_amended (obj : PyVal) :
    (obj ≠ PyVal.none → (∀ s, obj ≠ PyVal.bytes s) →
      _decode json_decode obj ≠ Except.ok PyVal.none)
  ∧ (∀ s, parse s = some PyVal.none →
      _decode json_decode (PyVal.bytes s) = Except.ok PyVal.none) := by
  constructor
  · intro h1 h2
    cases obj with
    | none => exact absurd rfl h1
    | bytes s => exact absurd rfl (h2 s)
    | str s =>
        cases hp : parse s with
        | none =>
            simp only [_decode, json_decode_attempt, json_decode, hp]
            exact decode_list_ne_none (PyVal.str s) (by simp)
        | some v =>
            cases v with
            | none =>
                simp only [_decode, json_decode_attempt, json_decode, hp, decodeInner,
                  pyDecodeMethod]
                exact decode_list_ne_none (PyVal.str s) (by simp)
            | bool b => simp [_decode, json_decode_attempt, json_decode, hp]
            | int n => simp [_decode, json_decode_attempt, json_decode, hp]
            | str t => simp [_decode, json_decode_attempt, json_decode, hp]
            | bytes t => simp [_decode, json_decode_attempt, json_decode, hp]
            | list ys => simp [_decode, json_decode_attempt, json_decode, hp]
            | dict kvs => simp [_decode, json_decode_attempt, json_decode, hp]
    | bool b =>
        simp only [_decode, json_decode_attempt, json_decode, decodeInner,
          pyDecodeMethod]
        exact decode_list_ne_none (PyVal.bool b) (by simp)
    | int n =>
        simp only [_decode, json_decode_attempt, json_decode, decodeInner,
          pyDecodeMethod]
        exact decode_list_ne_none (PyVal.int n) (by simp)
    | list xs =>
        simp only [_decode, json_decode_attempt, json_decode, decodeInner,
          pyDecodeMethod]
        exact decode_list_ne_none (PyVal.list xs) (by simp)
    | dict kvs =>
        simp only [_decode, json_decode_attempt, json_decode, decodeInner,
          pyDecodeMethod]
        exact decode_list_ne_none (PyVal.dict kvs) (by simp)
  · intro s hp
    simp [_decode, json_decode_attempt, json_decode, decodeInner, pyDecodeMethod, hp]

/-- C2 (witness): the amended statement at the string `"null"` (the decode
never yields null) and at the byte sequence `b"null"` (it does). -/
theorem c2_null_guard_amended_witness :
    _decode json_decode (PyVal.str ("null")) ≠ Except.ok PyVal.none
  ∧ _decode json_decode (PyVal.bytes ("null")) = Except.ok PyVal.none :=
  ⟨(c2_null_guard_amended (PyVal.str ("null"))).1 (by simp) (fun s => by simp),
   (c2_null_guard_amended (PyVal.bytes ("null"))).2 ("null") rfl⟩

/-- C3 (counterexample): null is a representable canonical value, yet
decoding its encoding does not return null — the encoded text `"null"`
parses to a null value, which the decode chain treats as a parse failure. -/
theorem c3_round_trip_counterexample :
    Canonical PyVal.none = true ∧ roundTrip PyVal.none ≠ Except.ok PyVal.none := by
  constructor
  · simp [Canonical]
  · have hr : render PyVal.none = "null" := by
      simp [render, renderC]
    have h : roundTrip PyVal.none = Except.error PyErr.jsonDecodeError := by
      unfold roundTrip
      have he : _encode PyVal.none = Except.ok "null" := by
        simp [_encode, Canonical, hr]
      rw [he]
      simp [_decode, json_decode_attempt, json_decode, decodeInner, pyDecodeMethod,
        decode_list, textLeaf]
      rfl
    rw [h]
    simp

/-- C3 (amended): for every representable canonical value other than null,
decoding the encoding returns the value unchanged. -/
theorem c3_round_trip_amended (v : PyVal) (hc : Canonical v = true)
    (hn : v ≠ PyVal.none) : roundTrip v = Except.ok v := by
  have hp := parse_render v hc
  unfold roundTrip
  have he : _encode v = Except.ok (render v) := by simp [_encode, hc]
  rw [he]
  cases v with
  | none => exact absurd rfl hn
  | bool b => simp [_decode, json_decode_attempt, json_decode, hp]
  | int n => simp [_decode, json_decode_attempt, json_decode, hp]
  | str t => simp [_decode, json_decode_attempt, json_decode, hp]
  | bytes t => simp [Canonical] at hc
  | list ys => simp [_decode, json_decode_attempt, json_decode, hp]
  | dict kvs => simp [_decode, json_decode_attempt, json_decode, hp]

/-- C3 (witness): the amended round trip at a compound canonical value with
a negative number, an escaped quote, a nested mapping holding null, and a
boolean. -/
theorem c3_round_trip_amended_witness :
    roundTrip (PyVal.list [PyVal.int (-3), PyVal.str ("a\"b"),
        PyVal.dict [("k", PyVal.none)], PyVal.bool true])
      = Except.ok (PyVal.list [PyVal.int (-3), PyVal.str ("a\"b"),
        PyVal.dict [("k", PyVal.none)], PyVal.bool true]) :=
  c3_round_trip_amended _
    (by simp [Canonical, CanonicalElems, CanonicalMembers]) (by simp)

/-- Leaf specification of the structural fallback (spec §4.1 step 3 / §8):
an encoded-text (byte sequence) leaf relates to its parsed non-null value,
an already-scalar leaf to itself. -/
inductive LeafRel : PyVal → PyVal → Prop where
  | text : ∀ s v, parse s = some v → v ≠ PyVal.none → LeafRel (PyVal.bytes s) v
  | scalarBool : ∀ b, LeafRel (PyVal.bool b) (PyVal.bool b)
  | scalarInt : ∀ n, LeafRel (PyVal.int n) (PyVal.int n)

/-- C4: a pre-structured sequence mixing encoded-text leaves and
already-scalar leaves decodes to the ordered sequence in which every
byte-sequence leaf went through the text path and every scalar leaf is
unchanged. -/
theorem c4_structural_fallback (xs ys : List PyVal) (h : List.Forall₂ LeafRel xs ys) :
    _decode json_decode (PyVal.list xs) = Except.ok (PyVal.list ys) := by
  have hd : decodeElems json_decode xs = Except.ok ys := by
    induction h with
    | nil => rfl
    | cons hxy hrest ih =>
        cases hxy with
        | text s hp hv =>
            rename_i hne
            simp [decodeElems, decode_list, textLeaf_of_parse s _ hv hne, ih, Except.map]
        | scalarBool b => simp [decodeElems, decode_list, ih, Except.map]
        | scalarInt n => simp [decodeElems, decode_list, ih, Except.map]
  simp [_decode, json_decode_attempt, json_decode, decodeInner, pyDecodeMethod,
    decode_list, hd, Except.map]

/-- C4 (witness): the spec's own example — `[b'"a"', 1, b'true']` decodes to
`["a", 1, true]`. -/
theorem c4_structural_fallback_witness :
    _decode json_decode
        (PyVal.list [PyVal.bytes ("\"a\""), PyVal.int 1, PyVal.bytes ("true")])
      = Except.ok (PyVal.list [PyVal.str ("a"), PyVal.int 1, PyVal.bool true]) :=
  c4_structural_fallback _ _ (by
    refine List.Forall₂.cons (LeafRel.text _ _ rfl (by simp)) ?_
    refine List.Forall₂.cons (LeafRel.scalarInt 1) ?_
    exact List.Forall₂.cons (LeafRel.text _ _ rfl (by simp)) List.Forall₂.nil)

/-- C6 (counterexample): `b"null"` is not a representable payload (its text
parses to null, which the spec reserves for the absent signal), yet both
fallback stages failing to produce a representable value does not make
`_decode` raise — it returns null. -/
theorem c6_decode_error_counterexample :
    Representable (PyVal.bytes ("null")) = false
  ∧ _decode json_decode (PyVal.bytes ("null")) = Except.ok PyVal.none := by
  constructor
  · simp [Representable, textRepresentable,
      show parse ("null") = some PyVal.none from rfl]
  · rfl

/-- C6 (amended): `_decode` never throws for a representable payload; for a
payload no stage can represent it raises the reported `JSONDecodeError` —
except for a top-level byte sequence whose text parses to JSON null, which
returns null instead of raising. -/
theorem c6_decode_error_amended (obj : PyVal) :
    (Representable obj = true → ∃ v, _decode json_decode obj = Except.ok v)
  ∧ (Representable obj = false → topLevelNullBytes obj = false →
      _decode json_decode obj = Except.error PyErr.jsonDecodeError)
  ∧ (topLevelNullBytes obj = true → _decode json_decode obj = Except.ok PyVal.none) :=
  _decode_master obj

/-- C6 (witness): the amended statement at a representable payload
(`b"[1,2]"`), a non-representable one (`b"nope"`), and the exceptional
null-text byte sequence (`b"null"`). -/
theorem c6_decode_error_amended_witness :
    (∃ v, _decode json_decode (PyVal.bytes ("[1,2]")) = Except.ok v)
  ∧ _decode json_decode (PyVal.bytes ("nope")) = Except.error PyErr.jsonDecodeError
  ∧ _decode json_decode (PyVal.bytes ("null")) = Except.ok PyVal.none := by
  refine ⟨(c6_decode_error_amended (PyVal.bytes ("[1,2]"))).1 ?_,
    (c6_decode_error_amended (PyVal.bytes ("nope"))).2.1 ?_ rfl,
    (c6_decode_error_amended (PyVal.bytes ("null"))).2.2 rfl⟩
  · simp [Representable, textRepresentable,
      show parse ("[1,2]") = some (PyVal.list [PyVal.int 1, PyVal.int 2]) from rfl]
  · simp [Representable, textRepresentable,
      show parse ("nope") = Option.none from rfl]

theorem zip_map_get (cbs : List (String × Transform)) (stack : List String) :
    ∀ (raws : List PyVal) (i : Nat) (name : String) (raw : PyVal),
      stack.get? i = some name → raws.get? i = some raw →
      ((stack.zip raws).map (fun q => applyCallback cbs q.1 q.2)).get? i
        = some (applyCallback cbs name raw) := by
  induction stack with
  | nil => intro raws i name raw h1 _; simp at h1
  | cons x xs ih =>
      intro raws i name raw h1 h2
      cases raws with
      | nil => simp at h2
      | cons y ys =>
          cases i with
          | zero =>
              simp only [List.get?] at h1 h2
              cases h1
              cases h2
              simp [List.zip_cons_cons]
          | succ i2 =>
              simp only [List.get?] at h1 h2
              simpa [List.zip_cons_cons] using ih ys i2 name raw h1 h2

/-- C7: the pipeline created by `JSON.pipeline` carries the identical
per-command transform mapping as the immediate-mode client (the very
`MODULE_CALLBACKS` assigned at construction); for every command name of the
table the batched façade decodes a raw response exactly as the immediate
façade does, and a flush decodes each response positionally with the
transform registered for its originating command. -/
theorem c7_pipeline_same_table (client : RedisClient)
    (dec : PyVal → Except PyErr PyVal) (j : JSONClient)
    (h : jsonInit client dec = Except.ok j) :
    (j.pipeline).response_callbacks = j.MODULE_CALLBACKS
  ∧ j.MODULE_CALLBACKS = MODULE_CALLBACKS dec
  ∧ (∀ name raw, name ∈ (MODULE_CALLBACKS dec).map Prod.fst →
      applyCallback (j.pipeline).response_callbacks name raw = j.execute name raw)
  ∧ (j.pipeline).decodeFn = _decode j.dec
  ∧ (j.pipeline).encodeFn = _encode
  ∧ (∀ (stack : List String) (raws : List PyVal) (i : Nat) (name : String)
      (raw : PyVal), stack.get? i = some name → raws.get? i = some raw →
      (Pipeline.flushWith { j.pipeline with command_stack := stack } raws).get? i
        = some (applyCallback j.MODULE_CALLBACKS name raw)) := by
  have hj : ∃ c2, registerAll client (MODULE_CALLBACKS dec) = Except.ok c2
      ∧ j = JSONClient.mk (MODULE_CALLBACKS dec) c2 dec := by
    unfold jsonInit at h
    cases hreg : registerAll client (MODULE_CALLBACKS dec) with
    | error e => rw [hreg] at h; cases h
    | ok c2 => rw [hreg] at h; cases h; exact ⟨c2, rfl, rfl⟩
  obtain ⟨c2, hreg, rfl⟩ := hj
  refine ⟨rfl, rfl, ?_, rfl, rfl, ?_⟩
  · intro name raw hmem
    show applyCallback (MODULE_CALLBACKS dec) name raw
      = applyCallback c2.response_callbacks name raw
    rw [(registerAll_ok _ _ _ hreg).1]
    exact (applyCallback_reverse_append (MODULE_CALLBACKS dec)
      client.response_callbacks name raw
      (by rw [ MODULE_CALLBACKS_keys]; decide) hmem).symm
  · intro stack raws i name raw h1 h2
    exact zip_map_get _ stack raws i name raw h1 h2

/-- C7 (witness): for a freshly constructed client, the pipeline shares the
table, agrees with the immediate façade on `"JSON.GET"`, and a two-command
flush decodes positionally. -/
theorem c7_pipeline_same_table_witness :
    ∃ j, jsonInit (RedisClient.mk [] (fun _ => true)) json_decode = Except.ok j
  ∧ (j.pipeline).response_callbacks = j.MODULE_CALLBACKS
  ∧ applyCallback (j.pipeline).response_callbacks "JSON.GET" (PyVal.bytes ("1"))
      = j.execute "JSON.GET" (PyVal.bytes ("1"))
  ∧ (Pipeline.flushWith { j.pipeline with command_stack := ["JSON.GET", "JSON.SET"] }
        [PyVal.bytes ("1"), PyVal.bytes ("OK")]).get? 1
      = some (applyCallback j.MODULE_CALLBACKS "JSON.SET" (PyVal.bytes ("OK"))) := by
  have h := c7_pipeline_same_table (RedisClient.mk [] (fun _ => true)) json_decode
    (JSONClient.mk (MODULE_CALLBACKS json_decode)
      (RedisClient.mk ((MODULE_CALLBACKS json_decode).reverse) (fun _ => true))
      json_decode) rfl
  exact ⟨_, rfl, h.1,
    h.2.2.1 "JSON.GET" (PyVal.bytes ("1")) (by rw [ MODULE_CALLBACKS_keys]; decide),
    h.2.2.2.2.2 ["JSON.GET", "JSON.SET"] [PyVal.bytes ("1"), PyVal.bytes ("OK")] 1
      "JSON.SET" (PyVal.bytes ("OK")) rfl rfl⟩

/-- C8: at construction every entry of the dispatch table is registered
with the underlying client's per-command response-interpretation hook, and
a registration failure propagates out of the constructor as a
construction-time error. -/
theorem c8_construction_registers (client : RedisClient)
    (dec : PyVal → Except PyErr PyVal) :
    ((∀ k ∈ (MODULE_CALLBACKS dec).map Prod.fst, client.hookSupported k = true) →
      ∃ j, jsonInit client dec = Except.ok j
        ∧ j.MODULE_CALLBACKS = MODULE_CALLBACKS dec
        ∧ j.client.response_callbacks
            = (MODULE_CALLBACKS dec).reverse ++ client.response_callbacks)
  ∧ ((∃ k ∈ (MODULE_CALLBACKS dec).map Prod.fst, client.hookSupported k = false) →
      jsonInit client dec = Except.error RegErr.constructionError) := by
  constructor
  · intro hsup
    obtain ⟨c2, hc2⟩ := registerAll_isOk _ client hsup
    exact ⟨JSONClient.mk (MODULE_CALLBACKS dec) c2 dec,
      by simp [jsonInit, hc2], rfl, (registerAll_ok _ _ _ hc2).1⟩
  · intro hfail
    simp [jsonInit, registerAll_fails _ client hfail]

/-- C8 (witness): construction against a transport supporting every hook
registers all entries; against one supporting none it fails. -/
theorem c8_construction_registers_witness :
    (∃ j, jsonInit (RedisClient.mk [] (fun _ => true)) json_decode = Except.ok j
      ∧ j.MODULE_CALLBACKS = MODULE_CALLBACKS json_decode
      ∧ j.client.response_callbacks = (MODULE_CALLBACKS json_decode).reverse ++ [])
  ∧ jsonInit (RedisClient.mk [] (fun _ => false)) json_decode
      = Except.error RegErr.constructionError :=
  ⟨(c8_construction_registers (RedisClient.mk [] (fun _ => true)) json_decode).1
      (fun k _ => rfl),
   (c8_construction_registers (RedisClient.mk [] (fun _ => false)) json_decode).2
      ⟨"JSON.CLEAR", by rw [ MODULE_CALLBACKS_keys]; decide, rfl⟩⟩

/-- C9: the `MODULE_CALLBACKS` mapping is fixed at construction: no
operation of the client (immediate execution, pipeline creation, encoding,
decoding) changes it — mirroring the source, where no method after
`__init__` assigns the attribute — and the pipeline façade shares the very
mapping read-only. -/
theorem c9_table_frozen (j : JSONClient) (ops : List ClientOp) :
    (runOps j ops).MODULE_CALLBACKS = j.MODULE_CALLBACKS
  ∧ (j.pipeline).response_callbacks = j.MODULE_CALLBACKS := by
  constructor
  · induction ops generalizing j with
    | nil => rfl
    | cons op ops ih => cases op <;> simpa [runOps, applyOp] using ih _
  · rfl

end AioredisJson
